import Mathlib

/-!
# fs-mod-sync: catalog reconciliation, local scan, size parsing and the sync worker

A shallow embedding of the decision-carrying code of the repository:

* `internal/models/mod.go`      : `Mod`, `SyncStatus`, `SyncResult`
* `internal/scanner/scanner.go` : `ScanLocalMods`, `extractModDesc`
* `internal/parser/parser.go`   : `ParseHTML` (per-row extraction), `parseSize`,
                                  `isVersionFormat`
* `app.go`                      : `GetSyncStatus`, `StartSync` (selection and worker)

Go strings are Lean `String`s; `int64` values are `Int` with explicit
wrap-around (`wrap64`); Go maps are partial functions `String → Option _`.
Calls into the operating system, the network and the standard library
(`zip.OpenReader`, `xml.Unmarshal`, `http.Get`, `downloader.Download`,
`context.Context`) are represented by their observable outcomes, supplied
as data.
-/

namespace FsModSync

/-! ## Data model (`internal/models/mod.go`, `internal/scanner/scanner.go`) -/

/-- The `models.Mod` struct. -/
structure Mod where
  Name : String := ""
  Version : String := ""
  Author : String := ""
  Filename : String := ""
  Size : String := ""
  SizeBytes : Int := 0
  IsDLC : Bool := false
  IsActive : Bool := false
  URL : String := ""
  NeedsUpdate : Bool := false
  LocalVersion : String := ""
  deriving DecidableEq

/-- The `models.SyncStatus` struct (the formatted `TotalSize` string is omitted:
it is `parser.FormatSize totalSize`, a float rendering of `TotalSizeBytes`). -/
structure SyncStatus where
  TotalMods : Nat
  ModsToSync : Nat
  TotalSizeBytes : Int
  GameVersion : String
  deriving DecidableEq

/-- The `models.SyncResult` struct. -/
structure SyncResult where
  Status : SyncStatus
  Mods : List Mod
  deriving DecidableEq

/-- The `scanner.ModDescriptor` struct. -/
structure ModDescriptor where
  Version : String := ""
  Author : String := ""
  deriving DecidableEq

/-- A Go `map[string]ModDescriptor`: lookup returns `none` when the key is absent. -/
abbrev LocalMods := String → Option ModDescriptor

/-- The empty map `make(map[string]ModDescriptor)`. -/
def LocalMods.empty : LocalMods := fun _ => none

/-- The map assignment `result[name] = desc`. -/
def LocalMods.set (m : LocalMods) (name : String) (desc : ModDescriptor) : LocalMods :=
  fun k => if k = name then some desc else m k

/-- Two's-complement wrap-around of an `int64` result. -/
def wrap64 (x : Int) : Int := (x + 2 ^ 63) % 2 ^ 64 - 2 ^ 63

/-! ## Reconciliation (`app.go`, `GetSyncStatus`) -/

/-- The loop of `GetSyncStatus` (app.go lines 133-152): walks `mods` in order,
updates each element in place and accumulates `totalSize` (an `int64`) and
`modsToSync`. Returns the updated slice and the two accumulators. -/
def syncLoop (localMods : LocalMods) : List Mod → Int → Nat → List Mod × Int × Nat
  | [], totalSize, modsToSync => ([], totalSize, modsToSync)
  | m :: rest, totalSize, modsToSync =>
    if m.IsDLC || m.URL == "" then
      let r := syncLoop localMods rest totalSize modsToSync
      (m :: r.1, r.2.1, r.2.2)
    else
      match localMods m.Filename with
      | none =>
        let r := syncLoop localMods rest (wrap64 (totalSize + m.SizeBytes)) (modsToSync + 1)
        ({ m with NeedsUpdate := true, LocalVersion := "" } :: r.1, r.2.1, r.2.2)
      | some localDesc =>
        if localDesc.Version != m.Version && localDesc.Version != "unknown" then
          let r := syncLoop localMods rest (wrap64 (totalSize + m.SizeBytes)) (modsToSync + 1)
          ({ m with NeedsUpdate := true, LocalVersion := localDesc.Version } :: r.1, r.2.1, r.2.2)
        else
          let r := syncLoop localMods rest totalSize modsToSync
          ({ m with LocalVersion := localDesc.Version } :: r.1, r.2.1, r.2.2)

/-- The part of `GetSyncStatus` after the catalog (`mods`, `gameVersion`) has been
fetched and parsed and the local directory scanned (app.go lines 130-165). -/
def GetSyncStatus (mods : List Mod) (gameVersion : String) (localMods : LocalMods) :
    SyncResult :=
  let r := syncLoop localMods mods 0 0
  { Status :=
      { TotalMods := mods.length
        ModsToSync := r.2.2
        TotalSizeBytes := r.2.1
        GameVersion := gameVersion }
    Mods := r.1 }

/-- The selection loop of `StartSync` (app.go lines 179-189): the entries appended
to `modsToDownload`, in catalog order. -/
def modsToDownload (localMods : LocalMods) : List Mod → List Mod
  | [] => []
  | mod :: rest =>
    if mod.IsDLC || mod.URL == "" then
      modsToDownload localMods rest
    else
      match localMods mod.Filename with
      | none => mod :: modsToDownload localMods rest
      | some localDesc =>
        if localDesc.Version != mod.Version && localDesc.Version != "unknown" then
          mod :: modsToDownload localMods rest
        else
          modsToDownload localMods rest

/-! ## Go `strings` helpers, over the characters of a string -/

/-- The function `strings.ToLower`, on ASCII letters; other characters are kept,
where Go also lowers non-ASCII letters (U+0130 becomes `i`). It agrees with the
code on ASCII names. -/
def ToLower (s : String) : String := String.mk (s.data.map Char.toLower)

/-- The function `strings.ToUpper`, on ASCII letters; other characters are kept,
where Go also raises non-ASCII letters. It agrees with the code on ASCII input. -/
def ToUpper (s : String) : String := String.mk (s.data.map Char.toUpper)

/-- The function `strings.HasSuffix`. -/
def HasSuffix (s suffix : String) : Bool := suffix.data.isSuffixOf s.data

/-- The function `strings.HasPrefix`. -/
def HasPrefix (s pre : String) : Bool := pre.data.isPrefixOf s.data

/-- The function `strings.TrimPrefix`. -/
def TrimPrefix (s pre : String) : String :=
  if pre.data.isPrefixOf s.data then String.mk (s.data.drop pre.data.length) else s

/-- Whether `sub` occurs in `s` starting at some position. -/
def containsAt (sub : List Char) : List Char → Bool
  | [] => sub.isEmpty
  | c :: cs => sub.isPrefixOf (c :: cs) || containsAt sub cs

/-- The function `strings.Contains`. -/
def Contains (s sub : String) : Bool := containsAt sub.data s.data

/-- The predicate `unicode.IsSpace`, which `strings.TrimSpace` trims by. -/
def isSpace (c : Char) : Bool :=
  let n := c.toNat
  (9 ≤ n && n ≤ 13) || n == 32 || n == 0x85 || n == 0xA0 || n == 0x1680 ||
    (0x2000 ≤ n && n ≤ 0x200A) || n == 0x2028 || n == 0x2029 || n == 0x202F ||
    n == 0x205F || n == 0x3000

/-- The function `strings.TrimSpace`. -/
def TrimSpace (s : List Char) : List Char :=
  ((s.dropWhile isSpace).reverse.dropWhile isSpace).reverse

/-! ## Local inventory scan (`internal/scanner/scanner.go`) -/

/-- What `extractModDesc` meets when it opens, reads and unmarshals one archive
member: `file.Open` fails, `io.ReadAll` fails, `xml.Unmarshal` fails, or the
document is unmarshalled into `modDesc{Version, Author}`. -/
inductive MemberOutcome
  | openErr
  | readErr
  | xmlErr
  | parsed (version author : String)
  deriving DecidableEq

/-- One `*zip.File` of `reader.File`: its path inside the archive and what
reading it yields. -/
structure ZipMember where
  Name : String
  outcome : MemberOutcome
  deriving DecidableEq

/-- The result of `zip.OpenReader(zipPath)`: an error, or the member list. -/
inductive ZipArchive
  | openErr
  | opened (File : List ZipMember)
  deriving DecidableEq

/-- The non-nil errors `extractModDesc` can return, by the step that failed. -/
inductive ExtractError
  | zipOpen
  | memberOpen
  | memberRead
  | xmlUnmarshal
  deriving DecidableEq

/-- The member test of `extractModDesc` (scanner.go lines 65-66). -/
def isDescriptorName (name : String) : Bool :=
  let lowerName := ToLower name
  HasSuffix lowerName "moddesc.xml" || lowerName == "moddesc.xml"

/-- The loop of `extractModDesc` over `reader.File` (scanner.go lines 64-90),
with the fall-through `return ModDescriptor{}, nil` when the loop ends. -/
def extractFromFiles : List ZipMember → Except ExtractError ModDescriptor
  | [] => .ok {}
  | file :: rest =>
    if isDescriptorName file.Name then
      match file.outcome with
      | .openErr => .error .memberOpen
      | .readErr => .error .memberRead
      | .xmlErr => .error .xmlUnmarshal
      | .parsed version author => .ok { Version := version, Author := author }
    else
      extractFromFiles rest

/-- The function `extractModDesc` (scanner.go lines 57-91). -/
def extractModDesc : ZipArchive → Except ExtractError ModDescriptor
  | .openErr => .error .zipOpen
  | .opened files => extractFromFiles files

/-- One `os.DirEntry` of the scanned directory, with the archive that
`zip.OpenReader` would find at its path. -/
structure DirEntry where
  Name : String
  IsDir : Bool
  archive : ZipArchive
  deriving DecidableEq

/-- The result of `os.ReadDir(directory)`. -/
inductive ReadDirResult
  | notExist
  | failed
  | entries (es : List DirEntry)
  deriving DecidableEq

/-- The loop of `ScanLocalMods` over the directory entries (scanner.go lines 34-52). -/
def scanEntries : List DirEntry → LocalMods → LocalMods
  | [], result => result
  | entry :: rest, result =>
    if entry.IsDir then
      scanEntries rest result
    else if !HasSuffix (ToLower entry.Name) ".zip" then
      scanEntries rest result
    else
      match extractModDesc entry.archive with
      | .error _ => scanEntries rest (result.set entry.Name { Version := "unknown" })
      | .ok desc => scanEntries rest (result.set entry.Name desc)

/-- The function `ScanLocalMods` (scanner.go lines 23-55); `none` is the
propagated `os.ReadDir` error. -/
def ScanLocalMods : ReadDirResult → Option LocalMods
  | .notExist => some LocalMods.empty
  | .failed => none
  | .entries es => some (scanEntries es LocalMods.empty)

/-! ## Catalog parser (`internal/parser/parser.go`) -/

/-- Consumes the digits matched by a greedy `\d+` (ASCII digits); `none` when
there is not even one. -/
def takeDigits1 (s : List Char) : Option (List Char) :=
  if (s.takeWhile Char.isDigit).isEmpty then none else some (s.dropWhile Char.isDigit)

/-- Consumes a literal `.`. -/
def takeDot : List Char → Option (List Char)
  | '.' :: rest => some rest
  | _ => none

/-- The function `isVersionFormat`: a whole-string match of
`^\d+\.\d+\.\d+\.\d+$`. Digits and the dot are disjoint, so the greedy match
is the only one. -/
def isVersionFormat (s : String) : Bool :=
  match (((((takeDigits1 s.data >>= takeDot) >>= takeDigits1) >>= takeDot)
      >>= takeDigits1) >>= takeDot) >>= takeDigits1 with
  | some [] => true
  | _ => false

/-- The character class `[\d.]` of the size pattern. -/
def isDigitOrDot (c : Char) : Bool := c.isDigit || c == '.'

/-- The class `\s` of Go regular expressions: `[\t\n\f\r ]`. -/
def isRegexSpace (c : Char) : Bool :=
  c == '\t' || c == '\n' || c == '\x0c' || c == '\r' || c == ' '

/-- The alternation `(KB|MB|GB)` at the head of the input; the pattern carries
no case-insensitive flag, so only these upper-case spellings match. -/
def unitAt : List Char → Option String
  | 'K' :: 'B' :: _ => some "KB"
  | 'M' :: 'B' :: _ => some "MB"
  | 'G' :: 'B' :: _ => some "GB"
  | _ => none

/-- A match of `([\d.]+)\s*(KB|MB|GB)` anchored at the head of `s`, returning the
two capture groups. Both repetitions are greedy; giving back a character of
`[\d.]+` or of `\s*` leaves a digit, dot or blank where the unit must start, so
the maximal runs are the only way to match. -/
def matchSizeAt (s : List Char) : Option (List Char × String) :=
  let num := s.takeWhile isDigitOrDot
  if num.isEmpty then none
  else (unitAt ((s.dropWhile isDigitOrDot).dropWhile isRegexSpace)).map fun u => (num, u)

/-- The call `re.FindStringSubmatch(sizeStr)`: the leftmost match, `none` when
there is none (`len(matches) < 3`). -/
def findSizeSubmatch : List Char → Option (List Char × String)
  | [] => none
  | c :: cs =>
    match matchSizeAt (c :: cs) with
    | some r => some r
    | none => findSizeSubmatch cs

/-- Decimal value of a run of digits. -/
def digitsValue (ds : List Char) : Nat :=
  ds.foldl (fun acc c => 10 * acc + (c.toNat - '0'.toNat)) 0

/-- The call `strconv.ParseFloat(matches[1], 64)` on a run of digits and dots: an
error (`none`) unless the run has at most one dot and at least one digit;
otherwise the value `mantissa / 10 ^ decimals`, returned as that pair. The value
is kept exact: the rounding to the nearest `float64` and the range error for
values beyond `float64` are not represented. -/
def parseDecimal (num : List Char) : Option (Nat × Nat) :=
  let intPart := num.takeWhile Char.isDigit
  match num.dropWhile Char.isDigit with
  | [] => if intPart.isEmpty then none else some (digitsValue intPart, 0)
  | '.' :: frac =>
    if frac.all Char.isDigit && !(intPart.isEmpty && frac.isEmpty) then
      some (digitsValue (intPart ++ frac), frac.length)
    else none
  | _ => none

/-- The function `parseSize` (parser.go lines 138-162). The conversion
`int64(value * multiplier)` truncates the product, which is non-negative. The
result agrees with the code when the decimal is exactly a `float64` and the
product is below `2 ^ 63`; outside that, the code rounds the number to the
nearest `float64` first and the conversion to `int64` is out of range. -/
def parseSize (sizeStr : String) : Int :=
  let sizeStr := TrimSpace sizeStr.data
  match findSizeSubmatch sizeStr with
  | none => 0
  | some (number, unitToken) =>
    match parseDecimal number with
    | none => 0
    | some (mantissa, decimals) =>
      let unit := ToUpper unitToken
      if unit = "KB" then ((mantissa * 1024 / 10 ^ decimals : Nat) : Int)
      else if unit = "MB" then ((mantissa * (1024 * 1024) / 10 ^ decimals : Nat) : Int)
      else if unit = "GB" then ((mantissa * (1024 * 1024 * 1024) / 10 ^ decimals : Nat) : Int)
      else 0

/-- An element matched by `row.Find(".container-row")`: its `title` attribute
(`none` when absent, read as `""`) and its text content. -/
structure Col where
  title : Option String
  text : String
  deriving DecidableEq

/-- What `ParseHTML` reads of one `.container-row.grid-row` element: the `title`
attribute of the first `div[title]` inside it (`none` when there is no such
element), the `.container-row` elements inside it and the `href` values of the
`a[href]` elements inside it, both in document order. -/
structure Row where
  nameTitle : Option String
  cols : List Col
  hrefs : List String
  deriving DecidableEq

/-- The body of the column callback (parser.go lines 65-97) for one element. -/
def applyCol (mod : Mod) (col : Col) : Mod :=
  let colTitle := col.title.getD ""
  let mod :=
    if (Contains col.text "Version" || isVersionFormat colTitle) &&
        (colTitle != "" && isVersionFormat colTitle) then
      { mod with Version := colTitle } else mod
  let mod :=
    if Contains col.text "Author" && colTitle != "" then
      { mod with Author := colTitle } else mod
  let mod :=
    if (Contains col.text "Filename" || HasSuffix colTitle ".zip" || HasSuffix colTitle ".dlc") &&
        colTitle != "" then
      { mod with Filename := colTitle, IsDLC := HasSuffix colTitle ".dlc" } else mod
  let mod :=
    if Contains col.text "Size" &&
        (colTitle != "" &&
          (Contains colTitle "MB" || Contains colTitle "GB" || Contains colTitle "KB")) then
      { mod with Size := colTitle, SizeBytes := parseSize colTitle } else mod
  if Contains col.text "Active" then
    { mod with IsActive := Contains col.text "Yes" } else mod

/-- The body of the link callback (parser.go lines 99-107) for one `href`.
The parameter `resolve` is `url.Parse` followed by
`base.ResolveReference(·).String()`; it is `none` when `url.Parse` fails. -/
def applyLink (resolve : String → Option String) (mod : Mod) (href : String) : Mod :=
  if HasPrefix href "mods/" && HasSuffix href ".zip" then
    match resolve href with
    | some u => { mod with URL := u }
    | none => mod
  else mod

/-- The fallback filename (parser.go lines 109-116): when no cell gave a
filename, it is taken from the first `a[href^="mods/"]` of the row. -/
def applyFallbackFilename (hrefs : List String) (mod : Mod) : Mod :=
  if mod.Filename == "" then
    match hrefs.filter (fun h => HasPrefix h "mods/") with
    | [] => mod
    | href :: _ =>
      let filename := TrimPrefix href "mods/"
      { mod with Filename := filename, IsDLC := HasSuffix filename ".dlc" }
  else mod

/-- The callback of `ParseHTML` for one row (parser.go lines 50-121): `none` when
the row is skipped, else the entry appended to `mods`. -/
def parseRow (resolve : String → Option String) (row : Row) : Option Mod :=
  match row.nameTitle with
  | none => none
  | some title =>
    if title == "" then none
    else if Contains title "Total" && Contains title "Mods" then none
    else
      let mod : Mod := { Name := title }
      let mod := row.cols.foldl applyCol mod
      let mod := row.hrefs.foldl (applyLink resolve) mod
      let mod := applyFallbackFilename row.hrefs mod
      if mod.Filename != "" then some mod else none

/-- The entry list returned by `ParseHTML` for the rows of a document, given the
link resolution against `baseURL`. -/
def ParseHTML (resolve : String → Option String) (rows : List Row) : List Mod :=
  rows.filterMap (parseRow resolve)

/-- Link resolution against a base URL whose path ends in `/`, for relative
references made of unreserved characters and `/`, without dot segments, query
or fragment (such as `mods/x.zip`): the reference is appended to the base.
Outside that, `url.Parse` can fail, the path is percent-encoded and the last
segment of the base path is replaced. -/
def resolveUnder (base : String) (href : String) : Option String := some (base ++ href)

/-! ## The sync worker (`app.go`, `StartSync`) -/

/-- The events emitted through `runtime.EventsEmit`. A progress event carries
`Filename`, `Downloaded` (the 1-based job number), `Total`, `CurrentSize`,
`TotalSize` and `Speed`; its `Progress` field is the float ratio of the two sizes. -/
inductive Event
  | downloadProgress (filename : String) (downloaded total : Nat)
      (currentSize totalSize : Int) (speed : String)
  | downloadComplete (filename : String)
  | downloadError (filename error : String)
  | syncComplete
  | syncCancelled
  deriving DecidableEq

/-- What the worker does that is visible outside: a call of
`downloader.Download(ctx, url, filepath.Join(modsDir, filename), ...)`, or an
emitted event. -/
inductive Action
  | download (url modsDir filename : String)
  | emit (e : Event)
  deriving DecidableEq

/-- What one loop iteration of the worker observes from outside: whether
`ctx.Done()` is ready at the `select` before the job, the `onProgress` calls
`Download` makes (`downloaded`, `total`, `speed`), the error it returns (`none`
for `nil`), and whether `ctx.Err() != nil` when that error is inspected. -/
structure JobRun where
  cancelledAtStart : Bool
  progress : List (Int × Int × String)
  err : Option String
  cancelledAtError : Bool

/-- The loop of the worker goroutine (app.go lines 208-251) from job index `i`
on, with `total = len(modsToDownload)`; `env k` is what iteration `k` observes. -/
def worker (modsDir : String) (total : Nat) (env : Nat → JobRun) :
    Nat → List Mod → List Action
  | _, [] => [.emit .syncComplete]
  | i, mod :: rest =>
    if (env i).cancelledAtStart then [.emit .syncCancelled]
    else
      .download mod.URL modsDir mod.Filename ::
        ((env i).progress.map fun p =>
          .emit (.downloadProgress mod.Filename (i + 1) total p.1 p.2.1 p.2.2)) ++
        match (env i).err with
        | some e =>
          if (env i).cancelledAtError then [.emit .syncCancelled]
          else .emit (.downloadError mod.Filename e) :: worker modsDir total env (i + 1) rest
        | none => .emit (.downloadComplete mod.Filename) :: worker modsDir total env (i + 1) rest

/-- The function `StartSync` after fetching and scanning (app.go lines 179-254):
the actions of the call and of the worker it starts. -/
def StartSync (mods : List Mod) (localMods : LocalMods) (modsDir : String)
    (env : Nat → JobRun) : List Action :=
  let jobs := modsToDownload localMods mods
  if jobs.length = 0 then [.emit .syncComplete]
  else worker modsDir jobs.length env 0 jobs

/-! ## Auxiliary definitions used to state the properties -/

/-- The effect of one iteration of the `GetSyncStatus` loop on its element. -/
def syncEntry (localMods : LocalMods) (m : Mod) : Mod :=
  (syncLoop localMods [m] 0 0).1.headD m

/-- An entry the reconciliation considers: not a package asset, with a download URL. -/
def eligible (m : Mod) : Bool := !m.IsDLC && m.URL != ""

/-- The `Download` calls of a log, in order. -/
def downloadsOf : List Action → List (String × String × String)
  | [] => []
  | .download url dir file :: rest => (url, dir, file) :: downloadsOf rest
  | .emit _ :: rest => downloadsOf rest

/-- The events of a log other than `download:progress`, in order. -/
def terminalEvents : List Action → List Event
  | [] => []
  | .download _ _ _ :: rest => terminalEvents rest
  | .emit (.downloadProgress _ _ _ _ _ _) :: rest => terminalEvents rest
  | .emit e :: rest => e :: terminalEvents rest

/-- The terminal event of a job whose `Download` returned `err`. -/
def terminalOf (m : Mod) : Option String → Event
  | none => .downloadComplete m.Filename
  | some e => .downloadError m.Filename e

/-- Whether an iteration observes the cancellation signal: at the check before
the job, or as `ctx.Err() != nil` when `Download` returned an error. -/
def observesCancel (r : JobRun) : Bool :=
  r.cancelledAtStart || (r.err.isSome && r.cancelledAtError)

/-- The decision rule as the specification words it: (a) no local file of that
name, or (b) a local version that differs from the catalog version and is not
the sentinel `"unknown"`. -/
def needsSync (localMods : LocalMods) (m : Mod) : Bool :=
  match localMods m.Filename with
  | none => true
  | some d => d.Version != m.Version && d.Version != "unknown"

/-- The marked entries of a reconciled list. -/
def marked (mods : List Mod) : List Mod := mods.filter fun m => m.NeedsUpdate

/-- The progress events of one job, as the worker emits them. -/
def progressActions (file : String) (i total : Nat) (ps : List (Int × Int × String)) :
    List Action :=
  ps.map fun p => .emit (.downloadProgress file (i + 1) total p.1 p.2.1 p.2.2)

/-- The link test of `ParseHTML` (parser.go line 101). -/
def isModLink (href : String) : Bool := HasPrefix href "mods/" && HasSuffix href ".zip"

/-! ## Concrete inputs used in the examples -/

/-- A downloadable catalog entry `a.zip` at version `1.0.0.1`, 10 bytes. -/
def modA : Mod :=
  { Name := "A", Version := "1.0.0.1", Filename := "a.zip", SizeBytes := 10,
    URL := "http://h/mods/a.zip" }

/-- A package-asset entry `pack.dlc`. -/
def modPack : Mod := { Name := "Pack", Filename := "pack.dlc", IsDLC := true }

/-- A local inventory holding `a.zip` with an unreadable descriptor. -/
def localUnknownA : LocalMods := LocalMods.empty.set "a.zip" { Version := "unknown" }

/-- A downloadable catalog entry `b.zip`, not installed locally. -/
def modB : Mod :=
  { Name := "B", Version := "2.0.0.0", Filename := "b.zip", SizeBytes := 20,
    URL := "http://h/mods/b.zip" }

/-- A downloadable catalog entry `c.zip`, not installed locally. -/
def modC : Mod :=
  { Name := "C", Version := "3.0.0.0", Filename := "c.zip", SizeBytes := 30,
    URL := "http://h/mods/c.zip" }

/-- A run of three jobs without cancellation in which the second download fails
with a bad status. -/
def envSecondFails : Nat → JobRun := fun k =>
  if k = 1 then
    { cancelledAtStart := false, progress := [], err := some "server returned status 404",
      cancelledAtError := false }
  else
    { cancelledAtStart := false, progress := [(5, 10, "1.00 KB/s")], err := none,
      cancelledAtError := false }

/-- A run in which cancellation is signalled after job 1 completes and before
job 2 starts. -/
def envCancelAfterFirst : Nat → JobRun := fun k =>
  { cancelledAtStart := decide (1 ≤ k), progress := [], err := none,
    cancelledAtError := decide (1 ≤ k) }

/-- A scanned directory holding one archive that opens but has no descriptor. -/
def dirNoDescriptor : ReadDirResult :=
  .entries [{ Name := "nodesc.zip", IsDir := false,
              archive := .opened [{ Name := "readme.txt", outcome := .xmlErr }] }]

/-- A downloadable catalog entry for the file `nodesc.zip`. -/
def modNoDesc : Mod :=
  { Name := "N", Version := "1.0.0.0", Filename := "nodesc.zip", SizeBytes := 40,
    URL := "http://h/mods/nodesc.zip" }

/-- A scanned directory holding one archive that cannot be opened. -/
def dirUnreadable : ReadDirResult :=
  .entries [{ Name := "nodesc.zip", IsDir := false, archive := .openErr }]

/-- An archive with a member `notmodDesc.xml` stored before the descriptor. -/
def archiveDecoy : ZipArchive :=
  .opened [{ Name := "notmodDesc.xml", outcome := .parsed "9.9.9.9" "decoy" },
           { Name := "modDesc.xml", outcome := .parsed "1.0.0.0" "author" }]

/-- A catalog row with a filename cell and two download links. -/
def rowTwoLinks : Row :=
  { nameTitle := some "A"
    cols := [{ title := some "a.zip", text := "Filename" }]
    hrefs := ["mods/a.zip", "mods/b.zip"] }

/-- A catalog row without a filename cell and with two download links. -/
def rowTwoLinksNoCell : Row :=
  { nameTitle := some "A"
    cols := []
    hrefs := ["mods/a.zip", "mods/b.zip"] }

/-! ## Lemmas on the reconciliation loop -/

theorem wrap64_of_range (x : Int) (h1 : -2 ^ 63 ≤ x) (h2 : x < 2 ^ 63) : wrap64 x = x := by
  unfold wrap64
  norm_num at h1 h2 ⊢
  omega

theorem wrap64_add_wrap64 (x y : Int) : wrap64 (wrap64 x + y) = wrap64 (x + y) := by
  unfold wrap64
  norm_num
  omega

theorem wrap64_idem (x : Int) : wrap64 (wrap64 x) = wrap64 x := by
  have := wrap64_add_wrap64 x 0
  simpa using this

theorem syncEntry_skip (localMods : LocalMods) (m : Mod)
    (h : (m.IsDLC || m.URL == "") = true) : syncEntry localMods m = m := by
  simp [syncEntry, syncLoop, h]

theorem syncLoop_fst (localMods : LocalMods) (mods : List Mod) (t : Int) (n : Nat) :
    (syncLoop localMods mods t n).1 = mods.map (syncEntry localMods) := by
  induction mods generalizing t n with
  | nil => rfl
  | cons m rest ih =>
    by_cases h : (m.IsDLC || m.URL == "") = true
    · simp only [syncLoop, h, if_true, List.map_cons, ih, syncEntry_skip localMods m h]
    · cases hl : localMods m.Filename with
      | none => simp [syncLoop, syncEntry, h, hl, ih]
      | some d =>
        by_cases hv : (d.Version != m.Version && d.Version != "unknown") = true
        · simp [syncLoop, syncEntry, h, hl, hv, ih]
        · simp [syncLoop, syncEntry, h, hl, hv, ih]

theorem syncLoop_cons_marked (localMods : LocalMods) (m : Mod) (rest : List Mod) (t : Int)
    (n : Nat) (h : (eligible m && needsSync localMods m) = true) :
    syncLoop localMods (m :: rest) t n =
      (syncEntry localMods m :: (syncLoop localMods rest (wrap64 (t + m.SizeBytes)) (n + 1)).1,
        (syncLoop localMods rest (wrap64 (t + m.SizeBytes)) (n + 1)).2.1,
        (syncLoop localMods rest (wrap64 (t + m.SizeBytes)) (n + 1)).2.2) := by
  simp only [eligible, needsSync, Bool.and_eq_true, Bool.not_eq_true', bne_iff_ne, ne_eq] at h
  obtain ⟨⟨h1, h2⟩, h3⟩ := h
  cases hl : localMods m.Filename with
  | none => simp [syncLoop, syncEntry, h1, h2, hl]
  | some d =>
    rw [hl] at h3
    simp only [Bool.and_eq_true, bne_iff_ne, ne_eq] at h3
    simp [syncLoop, syncEntry, h1, h2, hl, h3]

theorem syncLoop_cons_unmarked (localMods : LocalMods) (m : Mod) (rest : List Mod) (t : Int)
    (n : Nat) (h : (eligible m && needsSync localMods m) = false) :
    syncLoop localMods (m :: rest) t n =
      (syncEntry localMods m :: (syncLoop localMods rest t n).1,
        (syncLoop localMods rest t n).2.1, (syncLoop localMods rest t n).2.2) := by
  by_cases he : (m.IsDLC || m.URL == "") = true
  · simp only [syncLoop, he, if_true, syncEntry_skip localMods m he]
  · have he2 : eligible m = true := by
      simp only [Bool.or_eq_true, beq_iff_eq, not_or, Bool.not_eq_true] at he
      simp [eligible, he.1, he.2]
    rw [he2, Bool.true_and] at h
    cases hl : localMods m.Filename with
    | none => simp [needsSync, hl] at h
    | some d =>
      simp only [needsSync, hl] at h
      simp [syncLoop, syncEntry, he, hl, h]

theorem syncEntry_needsUpdate (localMods : LocalMods) (m : Mod) :
    (syncEntry localMods m).NeedsUpdate =
      (m.NeedsUpdate || (eligible m && needsSync localMods m)) := by
  by_cases he : (m.IsDLC || m.URL == "") = true
  · rw [syncEntry_skip localMods m he]
    have : eligible m = false := by
      simp only [Bool.or_eq_true, beq_iff_eq] at he
      rcases he with he | he <;> simp [eligible, he]
    simp [this]
  · have he2 : eligible m = true := by
      simp only [Bool.or_eq_true, beq_iff_eq, not_or, Bool.not_eq_true] at he
      simp [eligible, he.1, he.2]
    cases hl : localMods m.Filename with
    | none => simp [syncEntry, syncLoop, he, hl, he2, needsSync]
    | some d =>
      by_cases hv : (d.Version != m.Version && d.Version != "unknown") = true
      · simp [syncEntry, syncLoop, he, hl, he2, needsSync, hv]
      · have hv2 : (d.Version != m.Version && d.Version != "unknown") = false := by
          simpa using hv
        simp only [syncEntry, syncLoop, he, hl, he2, needsSync, hv2]
        simp

theorem syncEntry_sizeBytes (localMods : LocalMods) (m : Mod) :
    (syncEntry localMods m).SizeBytes = m.SizeBytes := by
  by_cases he : (m.IsDLC || m.URL == "") = true
  · rw [syncEntry_skip localMods m he]
  · cases hl : localMods m.Filename with
    | none => simp [syncEntry, syncLoop, he, hl]
    | some d =>
      by_cases hv : (d.Version != m.Version && d.Version != "unknown") = true
      · simp [syncEntry, syncLoop, he, hl, hv]
      · simp [syncEntry, syncLoop, he, hl, hv]

theorem syncLoop_count (localMods : LocalMods) (mods : List Mod) (t : Int) (n : Nat)
    (h0 : ∀ m ∈ mods, m.NeedsUpdate = false) :
    (syncLoop localMods mods t n).2.2 = n + (marked (syncLoop localMods mods t n).1).length := by
  induction mods generalizing t n with
  | nil => simp [syncLoop, marked]
  | cons m rest ih =>
    have hm : m.NeedsUpdate = false := h0 m (List.mem_cons_self _ _)
    have hr : ∀ x ∈ rest, x.NeedsUpdate = false := fun x hx => h0 x (List.mem_cons_of_mem _ hx)
    have hn := syncEntry_needsUpdate localMods m
    rw [hm, Bool.false_or] at hn
    cases h : (eligible m && needsSync localMods m) with
    | true =>
      rw [h] at hn
      rw [syncLoop_cons_marked localMods m rest t n h]
      simp only [marked, List.filter_cons, hn, if_true, List.length_cons]
      have := ih (wrap64 (t + m.SizeBytes)) (n + 1) hr
      simp only [marked] at this
      omega
    | false =>
      rw [h] at hn
      rw [syncLoop_cons_unmarked localMods m rest t n h]
      simp only [marked, List.filter_cons, hn]
      have := ih t n hr
      simp only [marked] at this
      simpa using this

theorem syncLoop_size (localMods : LocalMods) (mods : List Mod) (t : Int) (n : Nat)
    (h0 : ∀ m ∈ mods, m.NeedsUpdate = false) (ht : wrap64 t = t) :
    (syncLoop localMods mods t n).2.1 =
      wrap64 (t + ((marked (syncLoop localMods mods t n).1).map fun m => m.SizeBytes).sum) := by
  induction mods generalizing t n with
  | nil => simp [syncLoop, marked, ht]
  | cons m rest ih =>
    have hm : m.NeedsUpdate = false := h0 m (List.mem_cons_self _ _)
    have hr : ∀ x ∈ rest, x.NeedsUpdate = false := fun x hx => h0 x (List.mem_cons_of_mem _ hx)
    have hn := syncEntry_needsUpdate localMods m
    rw [hm, Bool.false_or] at hn
    cases h : (eligible m && needsSync localMods m) with
    | true =>
      rw [h] at hn
      rw [syncLoop_cons_marked localMods m rest t n h]
      simp only [marked, List.filter_cons, hn, if_true, List.map_cons, List.sum_cons,
        syncEntry_sizeBytes]
      have := ih (wrap64 (t + m.SizeBytes)) (n + 1) hr (wrap64_idem _)
      simp only [marked] at this
      rw [this, wrap64_add_wrap64, add_assoc]
    | false =>
      rw [h] at hn
      rw [syncLoop_cons_unmarked localMods m rest t n h]
      simp only [marked, List.filter_cons, hn]
      have := ih t n hr ht
      simp only [marked] at this
      simpa using this

theorem syncLoop_filter_eligible (localMods : LocalMods) (mods : List Mod) (t : Int) (n : Nat) :
    (syncLoop localMods (mods.filter eligible) t n).2 = (syncLoop localMods mods t n).2 := by
  induction mods generalizing t n with
  | nil => rfl
  | cons m rest ih =>
    cases he : eligible m with
    | false =>
      have h : (eligible m && needsSync localMods m) = false := by simp [he]
      rw [List.filter_cons, he, syncLoop_cons_unmarked localMods m rest t n h]
      simpa using ih t n
    | true =>
      rw [List.filter_cons, he]
      simp only [if_true]
      cases h : (eligible m && needsSync localMods m) with
      | true =>
        rw [syncLoop_cons_marked localMods m _ t n h, syncLoop_cons_marked localMods m _ t n h]
        simp only
        rw [ih]
      | false =>
        rw [syncLoop_cons_unmarked localMods m _ t n h,
          syncLoop_cons_unmarked localMods m _ t n h]
        simp only
        rw [ih]

theorem syncEntry_localVersion_absent (localMods : LocalMods) (m : Mod)
    (he : eligible m = true) (hl : localMods m.Filename = none) :
    (syncEntry localMods m).LocalVersion = "" := by
  simp only [eligible, Bool.and_eq_true, Bool.not_eq_true', bne_iff_ne, ne_eq] at he
  simp [syncEntry, syncLoop, he.1, he.2, hl]

theorem needsSync_iff (localMods : LocalMods) (m : Mod) :
    needsSync localMods m = true ↔
      (localMods m.Filename = none ∨
        ∃ d, localMods m.Filename = some d ∧ d.Version ≠ "unknown" ∧ d.Version ≠ m.Version) := by
  cases hl : localMods m.Filename with
  | none => simp [needsSync, hl]
  | some d =>
    simp only [needsSync, hl, Bool.and_eq_true, bne_iff_ne, ne_eq, Option.some.injEq,
      exists_eq_left', false_or, reduceCtorEq]
    exact And.comm

/-! ## Lemmas on the worker log -/

theorem downloadsOf_append (l₁ l₂ : List Action) :
    downloadsOf (l₁ ++ l₂) = downloadsOf l₁ ++ downloadsOf l₂ := by
  induction l₁ with
  | nil => rfl
  | cons a rest ih => cases a <;> simp [downloadsOf, ih]

theorem terminalEvents_append (l₁ l₂ : List Action) :
    terminalEvents (l₁ ++ l₂) = terminalEvents l₁ ++ terminalEvents l₂ := by
  induction l₁ with
  | nil => rfl
  | cons a rest ih =>
    cases a with
    | download u d f => simp [terminalEvents, ih]
    | emit e => cases e <;> simp [terminalEvents, ih]

theorem downloadsOf_progress (file : String) (i total : Nat) (ps : List (Int × Int × String)) :
    downloadsOf (progressActions file i total ps) = [] := by
  induction ps with
  | nil => rfl
  | cons p rest ih => simpa [progressActions, downloadsOf] using ih

theorem terminalEvents_progress (file : String) (i total : Nat)
    (ps : List (Int × Int × String)) :
    terminalEvents (progressActions file i total ps) = [] := by
  induction ps with
  | nil => rfl
  | cons p rest ih => simpa [progressActions, terminalEvents] using ih

theorem syncComplete_not_mem_progress (file : String) (i total : Nat)
    (ps : List (Int × Int × String)) :
    Action.emit Event.syncComplete ∉ progressActions file i total ps := by
  simp [progressActions]

theorem syncCancelled_not_mem_progress (file : String) (i total : Nat)
    (ps : List (Int × Int × String)) :
    Action.emit Event.syncCancelled ∉ progressActions file i total ps := by
  simp [progressActions]

theorem worker_nil (modsDir : String) (total : Nat) (env : Nat → JobRun) (i : Nat) :
    worker modsDir total env i [] = [.emit .syncComplete] := rfl

theorem worker_cons_cancelled (modsDir : String) (total : Nat) (env : Nat → JobRun) (i : Nat)
    (mod : Mod) (rest : List Mod) (h : (env i).cancelledAtStart = true) :
    worker modsDir total env i (mod :: rest) = [.emit .syncCancelled] := by
  simp [worker, h]

theorem worker_cons_error_cancelled (modsDir : String) (total : Nat) (env : Nat → JobRun)
    (i : Nat) (mod : Mod) (rest : List Mod) (e : String)
    (h : (env i).cancelledAtStart = false) (he : (env i).err = some e)
    (hc : (env i).cancelledAtError = true) :
    worker modsDir total env i (mod :: rest) =
      .download mod.URL modsDir mod.Filename ::
        (progressActions mod.Filename i total (env i).progress ++ [.emit .syncCancelled]) := by
  simp [worker, h, he, hc, progressActions]

theorem worker_cons_continue (modsDir : String) (total : Nat) (env : Nat → JobRun)
    (i : Nat) (mod : Mod) (rest : List Mod)
    (h : observesCancel (env i) = false) :
    worker modsDir total env i (mod :: rest) =
      .download mod.URL modsDir mod.Filename ::
        (progressActions mod.Filename i total (env i).progress ++
          .emit (terminalOf mod (env i).err) :: worker modsDir total env (i + 1) rest) := by
  simp only [observesCancel, Bool.or_eq_false_iff, Bool.and_eq_false_iff] at h
  obtain ⟨h1, h2⟩ := h
  cases he : (env i).err with
  | none => simp [worker, h1, he, terminalOf, progressActions]
  | some e =>
    rw [he] at h2
    have h3 : (env i).cancelledAtError = false := by simpa using h2
    simp [worker, h1, he, h3, terminalOf, progressActions]

/-- The log of a run in which no iteration observes cancellation. -/
theorem worker_not_cancelled (modsDir : String) (total : Nat) (env : Nat → JobRun)
    (i : Nat) (jobs : List Mod)
    (hc : ∀ j, j < jobs.length → observesCancel (env (i + j)) = false) :
    downloadsOf (worker modsDir total env i jobs) =
        jobs.map (fun m => (m.URL, modsDir, m.Filename)) ∧
      terminalEvents (worker modsDir total env i jobs) =
        List.zipWith (fun m k => terminalOf m (env k).err) jobs (List.range' i jobs.length) ++
          [Event.syncComplete] ∧
      (∃ pre, worker modsDir total env i jobs = pre ++ [.emit .syncComplete]) ∧
      Action.emit Event.syncCancelled ∉ worker modsDir total env i jobs := by
  induction jobs generalizing i with
  | nil => exact ⟨rfl, rfl, ⟨[], rfl⟩, by simp [worker]⟩
  | cons m rest ih =>
    have h0 : observesCancel (env i) = false := by simpa using hc 0 (by simp)
    have hrest : ∀ j, j < rest.length → observesCancel (env (i + 1 + j)) = false := by
      intro j hj
      have := hc (j + 1) (by simpa using hj)
      rwa [show i + (j + 1) = i + 1 + j by omega] at this
    obtain ⟨ih1, ih2, ⟨pre, ih3⟩, ih4⟩ := ih (i + 1) hrest
    rw [worker_cons_continue modsDir total env i m rest h0]
    refine ⟨?_, ?_, ?_, ?_⟩
    · simp [downloadsOf, downloadsOf_append, downloadsOf_progress, ih1]
    · have ht : ∀ l, terminalEvents (Action.emit (terminalOf m (env i).err) :: l) =
          terminalOf m (env i).err :: terminalEvents l := by
        intro l
        cases (env i).err <;> simp [terminalOf, terminalEvents]
      simp [terminalEvents, terminalEvents_append, terminalEvents_progress, ht, ih2,
        List.range'_succ]
    · refine ⟨.download m.URL modsDir m.Filename ::
        (progressActions m.Filename i total (env i).progress ++
          .emit (terminalOf m (env i).err) :: pre), ?_⟩
      simp [ih3]
    · have hne : Event.syncCancelled ≠ terminalOf m (env i).err := by
        cases (env i).err <;> simp [terminalOf]
      simp [syncCancelled_not_mem_progress, ih4, hne]

/-- The log of a run in which iteration `i + k` is the first to observe
cancellation. -/
theorem worker_cancelled_at (modsDir : String) (total : Nat) (env : Nat → JobRun)
    (i k : Nat) (jobs : List Mod) (hk : k < jobs.length)
    (hbefore : ∀ j, j < k → observesCancel (env (i + j)) = false)
    (hat : observesCancel (env (i + k)) = true) :
    downloadsOf (worker modsDir total env i jobs) =
        (jobs.take (if (env (i + k)).cancelledAtStart then k else k + 1)).map
          (fun m => (m.URL, modsDir, m.Filename)) ∧
      terminalEvents (worker modsDir total env i jobs) =
        List.zipWith (fun m j => terminalOf m (env j).err) (jobs.take k) (List.range' i k) ++
          [Event.syncCancelled] ∧
      (∃ pre, worker modsDir total env i jobs = pre ++ [.emit .syncCancelled]) ∧
      Action.emit Event.syncComplete ∉ worker modsDir total env i jobs := by
  induction jobs generalizing i k with
  | nil => simp at hk
  | cons m rest ih =>
    cases k with
    | zero =>
      rw [Nat.add_zero] at hat
      cases hs : (env i).cancelledAtStart with
      | true =>
        rw [worker_cons_cancelled modsDir total env i m rest hs]
        refine ⟨by simp [downloadsOf, hs], by simp [terminalEvents], ⟨[], rfl⟩, by simp⟩
      | false =>
        simp only [observesCancel, hs, Bool.false_or, Bool.and_eq_true,
          Option.isSome_iff_exists] at hat
        obtain ⟨⟨e, he⟩, hc⟩ := hat
        rw [worker_cons_error_cancelled modsDir total env i m rest e hs he hc]
        refine ⟨?_, ?_, ?_, ?_⟩
        · simp [downloadsOf, downloadsOf_append, downloadsOf_progress, hs]
        · simp [terminalEvents, terminalEvents_append, terminalEvents_progress]
        · exact ⟨.download m.URL modsDir m.Filename ::
            progressActions m.Filename i total (env i).progress, by simp⟩
        · simp [syncComplete_not_mem_progress]
    | succ k =>
      have h0 : observesCancel (env i) = false := by simpa using hbefore 0 (by simp)
      have hrest : ∀ j, j < k → observesCancel (env (i + 1 + j)) = false := by
        intro j hj
        have := hbefore (j + 1) (by omega)
        rwa [show i + (j + 1) = i + 1 + j by omega] at this
      have hat2 : observesCancel (env (i + 1 + k)) = true := by
        rwa [show i + (k + 1) = i + 1 + k by omega] at hat
      have hk2 : k < rest.length := by simpa using hk
      obtain ⟨ih1, ih2, ⟨pre, ih3⟩, ih4⟩ := ih (i + 1) k hk2 hrest hat2
      rw [worker_cons_continue modsDir total env i m rest h0]
      have hidx : i + (k + 1) = i + 1 + k := by omega
      refine ⟨?_, ?_, ?_, ?_⟩
      · rw [hidx]
        cases hs : (env (i + 1 + k)).cancelledAtStart <;>
          simp [hs, downloadsOf, downloadsOf_append, downloadsOf_progress, ih1]
      · have ht : ∀ l, terminalEvents (Action.emit (terminalOf m (env i).err) :: l) =
            terminalOf m (env i).err :: terminalEvents l := by
          intro l
          cases (env i).err <;> simp [terminalOf, terminalEvents]
        simp [terminalEvents, terminalEvents_append, terminalEvents_progress, ht, ih2,
          List.range'_succ]
      · refine ⟨.download m.URL modsDir m.Filename ::
          (progressActions m.Filename i total (env i).progress ++
            .emit (terminalOf m (env i).err) :: pre), ?_⟩
        simp [ih3]
      · have hne : Event.syncComplete ≠ terminalOf m (env i).err := by
          cases (env i).err <;> simp [terminalOf]
        simp [syncComplete_not_mem_progress, ih4, hne]

/-! ## Properties of the specification -/

/-- C1: for an entry at position `i` of the catalog list that is not a package
asset, has a non-empty download URL and arrives from the parser with
`NeedsUpdate = false`, `GetSyncStatus` leaves `NeedsUpdate = true` on it if and
only if its filename is absent from the local mapping, or present with a local
version that is not `"unknown"` and differs from the catalog version; a local
version `"unknown"` gives `NeedsUpdate = false`, and an absent filename gives
`LocalVersion = ""`. -/
theorem getSyncStatus_decision_rule (mods : List Mod) (gameVersion : String)
    (localMods : LocalMods) (i : Nat) (m : Mod) (hi : mods[i]? = some m)
    (hdlc : m.IsDLC = false) (hurl : m.URL ≠ "") (h0 : m.NeedsUpdate = false) :
    ∃ m', (GetSyncStatus mods gameVersion localMods).Mods[i]? = some m' ∧
      (m'.NeedsUpdate = true ↔
        (localMods m.Filename = none ∨
          ∃ d, localMods m.Filename = some d ∧ d.Version ≠ "unknown" ∧
            d.Version ≠ m.Version)) ∧
      (∀ d, localMods m.Filename = some d → d.Version = "unknown" →
        m'.NeedsUpdate = false) ∧
      (localMods m.Filename = none → m'.LocalVersion = "") := by
  have he : eligible m = true := by simp [eligible, hdlc, hurl]
  refine ⟨syncEntry localMods m, ?_, ?_, ?_, ?_⟩
  · simp [GetSyncStatus, syncLoop_fst, hi]
  · rw [syncEntry_needsUpdate, h0, he, Bool.false_or, Bool.true_and]
    exact needsSync_iff localMods m
  · intro d hd hu
    rw [syncEntry_needsUpdate, h0, he, Bool.false_or, Bool.true_and]
    simp [needsSync, hd, hu]
  · exact syncEntry_localVersion_absent localMods m he

/-- Witness for C1: a catalog of one entry at version `1.0.0.1`, installed
locally with a descriptor of version `"unknown"`. -/
theorem getSyncStatus_decision_rule_witness :
    ∃ m', (GetSyncStatus [modA] "FS22" localUnknownA).Mods[0]? = some m' ∧
      (m'.NeedsUpdate = true ↔
        (localUnknownA modA.Filename = none ∨
          ∃ d, localUnknownA modA.Filename = some d ∧ d.Version ≠ "unknown" ∧
            d.Version ≠ modA.Version)) ∧
      (∀ d, localUnknownA modA.Filename = some d → d.Version = "unknown" →
        m'.NeedsUpdate = false) ∧
      (localUnknownA modA.Filename = none → m'.LocalVersion = "") :=
  getSyncStatus_decision_rule [modA] "FS22" localUnknownA 0 modA rfl rfl (by decide) rfl

/-- C3 fails as stated: for a catalog holding one package asset, `TotalMods` is 1
while no entry is eligible. -/
theorem totalMods_counts_package_asset :
    (GetSyncStatus [modPack] "FS22" LocalMods.empty).Status.TotalMods = 1 ∧
      (List.filter eligible [modPack]).length = 0 ∧
      (GetSyncStatus [modPack] "FS22" LocalMods.empty).Status.TotalMods ≠
        (List.filter eligible [modPack]).length := by
  decide

/-- C3 as amended: `TotalMods` is the length of the whole catalog list, package
assets and entries without a download URL included; the number of eligible
entries never exceeds it and equals it exactly when every entry is eligible. -/
theorem totalMods_eq_length (mods : List Mod) (gameVersion : String) (localMods : LocalMods) :
    (GetSyncStatus mods gameVersion localMods).Status.TotalMods = mods.length ∧
      (mods.filter eligible).length ≤
        (GetSyncStatus mods gameVersion localMods).Status.TotalMods ∧
      ((GetSyncStatus mods gameVersion localMods).Status.TotalMods =
          (mods.filter eligible).length ↔ ∀ m ∈ mods, eligible m = true) := by
  refine ⟨rfl, List.length_filter_le _ _, ?_⟩
  show mods.length = (mods.filter eligible).length ↔ _
  rw [eq_comm, List.filter_length_eq_length]

/-- C4: on a catalog list whose entries arrive with `NeedsUpdate = false`,
`ModsToSync` is the number of entries marked `NeedsUpdate = true` and
`TotalSizeBytes` is the `int64` sum of `SizeBytes` over exactly those entries
(the exact sum when it fits in an `int64`); an entry that is a package asset or
has an empty download URL is returned unchanged and unmarked, and removing all
such entries from the catalog changes neither `ModsToSync` nor `TotalSizeBytes`,
whatever the local inventory holds. -/
theorem getSyncStatus_aggregates (mods : List Mod) (gameVersion : String)
    (localMods : LocalMods) (h0 : ∀ m ∈ mods, m.NeedsUpdate = false) :
    (GetSyncStatus mods gameVersion localMods).Status.ModsToSync =
        (marked (GetSyncStatus mods gameVersion localMods).Mods).length ∧
      (GetSyncStatus mods gameVersion localMods).Status.TotalSizeBytes =
        wrap64 (((marked (GetSyncStatus mods gameVersion localMods).Mods).map
          fun m => m.SizeBytes).sum) ∧
      (-2 ^ 63 ≤ ((marked (GetSyncStatus mods gameVersion localMods).Mods).map
            fun m => m.SizeBytes).sum →
        ((marked (GetSyncStatus mods gameVersion localMods).Mods).map
            fun m => m.SizeBytes).sum < 2 ^ 63 →
        (GetSyncStatus mods gameVersion localMods).Status.TotalSizeBytes =
          ((marked (GetSyncStatus mods gameVersion localMods).Mods).map
            fun m => m.SizeBytes).sum) ∧
      (∀ (i : Nat) (m : Mod), mods[i]? = some m → (m.IsDLC = true ∨ m.URL = "") →
        (GetSyncStatus mods gameVersion localMods).Mods[i]? = some m ∧
          m.NeedsUpdate = false) ∧
      (GetSyncStatus (mods.filter eligible) gameVersion localMods).Status.ModsToSync =
        (GetSyncStatus mods gameVersion localMods).Status.ModsToSync ∧
      (GetSyncStatus (mods.filter eligible) gameVersion localMods).Status.TotalSizeBytes =
        (GetSyncStatus mods gameVersion localMods).Status.TotalSizeBytes := by
  have hsize := syncLoop_size localMods mods 0 0 h0 (by decide)
  rw [zero_add] at hsize
  refine ⟨?_, hsize, ?_, ?_, ?_, ?_⟩
  · simpa [GetSyncStatus] using syncLoop_count localMods mods 0 0 h0
  · intro h1 h2
    show (syncLoop localMods mods 0 0).2.1 = _
    rw [hsize]
    exact wrap64_of_range _ h1 h2
  · intro i m hi hskip
    have hs : (m.IsDLC || m.URL == "") = true := by
      rcases hskip with h | h <;> simp [h]
    refine ⟨?_, h0 m (List.getElem?_mem hi)⟩
    simp [GetSyncStatus, syncLoop_fst, hi, syncEntry_skip localMods m hs]
  · show (syncLoop localMods (mods.filter eligible) 0 0).2.2 = (syncLoop localMods mods 0 0).2.2
    rw [syncLoop_filter_eligible]
  · show (syncLoop localMods (mods.filter eligible) 0 0).2.1 = (syncLoop localMods mods 0 0).2.1
    rw [syncLoop_filter_eligible]

/-- Witness for C4: a catalog with a package asset, an installed entry whose
local version is unknown and a missing entry. -/
theorem getSyncStatus_aggregates_witness :
    (GetSyncStatus [modPack, modA, modB] "FS22" localUnknownA).Status.ModsToSync =
        (marked (GetSyncStatus [modPack, modA, modB] "FS22" localUnknownA).Mods).length ∧
      (GetSyncStatus [modPack, modA, modB] "FS22" localUnknownA).Status.ModsToSync = 1 ∧
      (GetSyncStatus [modPack, modA, modB] "FS22" localUnknownA).Status.TotalSizeBytes = 20 :=
  ⟨(getSyncStatus_aggregates [modPack, modA, modB] "FS22" localUnknownA (by decide)).1,
    by decide, by decide⟩

theorem worker_ends (modsDir : String) (total : Nat) (env : Nat → JobRun) (i : Nat)
    (jobs : List Mod) :
    ∃ pre last, worker modsDir total env i jobs = pre ++ [.emit last] ∧
      (last = .syncComplete ∨ last = .syncCancelled) ∧
      Action.emit Event.syncComplete ∉ pre ∧ Action.emit Event.syncCancelled ∉ pre := by
  induction jobs generalizing i with
  | nil => exact ⟨[], .syncComplete, rfl, Or.inl rfl, by simp, by simp⟩
  | cons m rest ih =>
    cases ho : observesCancel (env i) with
    | false =>
      obtain ⟨pre, last, h1, h2, h3, h4⟩ := ih (i + 1)
      rw [worker_cons_continue modsDir total env i m rest ho]
      have hne1 : Event.syncComplete ≠ terminalOf m (env i).err := by
        cases (env i).err <;> simp [terminalOf]
      have hne2 : Event.syncCancelled ≠ terminalOf m (env i).err := by
        cases (env i).err <;> simp [terminalOf]
      refine ⟨.download m.URL modsDir m.Filename ::
        (progressActions m.Filename i total (env i).progress ++
          .emit (terminalOf m (env i).err) :: pre), last, by simp [h1], h2, ?_, ?_⟩
      · simp [syncComplete_not_mem_progress, h3, hne1]
      · simp [syncCancelled_not_mem_progress, h4, hne2]
    | true =>
      cases hs : (env i).cancelledAtStart with
      | true =>
        rw [worker_cons_cancelled modsDir total env i m rest hs]
        exact ⟨[], .syncCancelled, rfl, Or.inr rfl, by simp, by simp⟩
      | false =>
        simp only [observesCancel, hs, Bool.false_or, Bool.and_eq_true,
          Option.isSome_iff_exists] at ho
        obtain ⟨⟨e, he⟩, hc⟩ := ho
        rw [worker_cons_error_cancelled modsDir total env i m rest e hs he hc]
        refine ⟨.download m.URL modsDir m.Filename ::
          progressActions m.Filename i total (env i).progress, .syncCancelled, by simp,
          Or.inr rfl, ?_, ?_⟩
        · simp [syncComplete_not_mem_progress]
        · simp [syncCancelled_not_mem_progress]

/-- C8: in a run where the cancellation signal is never set, the worker calls
`Download` for every job exactly once, in the given order; the events other
than progress are one `download:complete` or `download:error` per job, in job
order and according to that job's outcome, followed by `sync:complete`, which
is the last event of the run; `sync:cancelled` is not emitted. -/
theorem worker_runs_every_job (modsDir : String) (env : Nat → JobRun) (jobs : List Mod)
    (hc : ∀ k, (env k).cancelledAtStart = false ∧ (env k).cancelledAtError = false) :
    downloadsOf (worker modsDir jobs.length env 0 jobs) =
        jobs.map (fun m => (m.URL, modsDir, m.Filename)) ∧
      terminalEvents (worker modsDir jobs.length env 0 jobs) =
        List.zipWith (fun m k => terminalOf m (env k).err) jobs (List.range jobs.length) ++
          [Event.syncComplete] ∧
      (worker modsDir jobs.length env 0 jobs).getLast? = some (.emit .syncComplete) ∧
      Action.emit Event.syncCancelled ∉ worker modsDir jobs.length env 0 jobs := by
  have hobs : ∀ j, j < jobs.length → observesCancel (env (0 + j)) = false := by
    intro j _
    rw [Nat.zero_add]
    simp [observesCancel, (hc j).1, (hc j).2]
  obtain ⟨h1, h2, ⟨pre, h3⟩, h4⟩ := worker_not_cancelled modsDir jobs.length env 0 jobs hobs
  refine ⟨h1, ?_, ?_, h4⟩
  · rw [h2, List.range_eq_range']
  · rw [h3, List.getLast?_concat]

/-- Witness for C8 (Scenario D): three jobs whose second download fails give
`complete, error, complete, sync:complete`. -/
theorem worker_runs_every_job_witness :
    (∀ k, (envSecondFails k).cancelledAtStart = false ∧
        (envSecondFails k).cancelledAtError = false) ∧
      terminalEvents (worker "mods" 3 envSecondFails 0 [modA, modB, modC]) =
        [.downloadComplete "a.zip", .downloadError "b.zip" "server returned status 404",
          .downloadComplete "c.zip", .syncComplete] ∧
      downloadsOf (worker "mods" 3 envSecondFails 0 [modA, modB, modC]) =
        [("http://h/mods/a.zip", "mods", "a.zip"), ("http://h/mods/b.zip", "mods", "b.zip"),
          ("http://h/mods/c.zip", "mods", "c.zip")] :=
  have hc : ∀ k, (envSecondFails k).cancelledAtStart = false ∧
      (envSecondFails k).cancelledAtError = false := by
    intro k
    unfold envSecondFails
    split <;> exact ⟨rfl, rfl⟩
  ⟨hc, (worker_runs_every_job "mods" envSecondFails [modA, modB, modC] hc).2.1,
    (worker_runs_every_job "mods" envSecondFails [modA, modB, modC] hc).1⟩

/-- C9: every run of the worker ends with exactly one of `sync:complete` and
`sync:cancelled`, as its last event. When job `k` is the first iteration to
observe the cancellation signal (at the check before the job, or as
`ctx.Err() != nil` after its download returned an error), `Download` is called
for the jobs before `k` only (and for job `k` itself when the signal was seen
after its download failed), the events other than progress are the terminal
events of the jobs before `k` followed by `sync:cancelled`, the last event is
`sync:cancelled`, and `sync:complete` is not emitted. -/
theorem worker_cancellation (modsDir : String) (env : Nat → JobRun) (jobs : List Mod) :
    (∃ pre last, worker modsDir jobs.length env 0 jobs = pre ++ [.emit last] ∧
        (last = .syncComplete ∨ last = .syncCancelled) ∧
        Action.emit Event.syncComplete ∉ pre ∧ Action.emit Event.syncCancelled ∉ pre) ∧
      ∀ k, k < jobs.length → (∀ j, j < k → observesCancel (env j) = false) →
        observesCancel (env k) = true →
        downloadsOf (worker modsDir jobs.length env 0 jobs) =
            (jobs.take (if (env k).cancelledAtStart then k else k + 1)).map
              (fun m => (m.URL, modsDir, m.Filename)) ∧
          terminalEvents (worker modsDir jobs.length env 0 jobs) =
            List.zipWith (fun m j => terminalOf m (env j).err) (jobs.take k) (List.range k) ++
              [Event.syncCancelled] ∧
          (worker modsDir jobs.length env 0 jobs).getLast? = some (.emit .syncCancelled) ∧
          Action.emit Event.syncComplete ∉ worker modsDir jobs.length env 0 jobs := by
  refine ⟨worker_ends modsDir jobs.length env 0 jobs, ?_⟩
  intro k hk hbefore hat
  have hb : ∀ j, j < k → observesCancel (env (0 + j)) = false := by
    intro j hj
    rw [Nat.zero_add]
    exact hbefore j hj
  have ha : observesCancel (env (0 + k)) = true := by rwa [Nat.zero_add]
  obtain ⟨h1, h2, ⟨pre, h3⟩, h4⟩ :=
    worker_cancelled_at modsDir jobs.length env 0 k jobs hk hb ha
  rw [Nat.zero_add] at h1
  refine ⟨h1, ?_, ?_, h4⟩
  · rw [h2, List.range_eq_range']
  · rw [h3, List.getLast?_concat]

/-- Witness for C9 (Scenario E): cancellation signalled after job 1 completes and
before job 2 starts; jobs 2 and 3 are never started and the run ends with
`sync:cancelled`. -/
theorem worker_cancellation_witness :
    downloadsOf (worker "mods" 3 envCancelAfterFirst 0 [modA, modB, modC]) =
        [("http://h/mods/a.zip", "mods", "a.zip")] ∧
      terminalEvents (worker "mods" 3 envCancelAfterFirst 0 [modA, modB, modC]) =
        [.downloadComplete "a.zip", .syncCancelled] ∧
      (worker "mods" 3 envCancelAfterFirst 0 [modA, modB, modC]).getLast? =
        some (.emit .syncCancelled) ∧
      Action.emit Event.syncComplete ∉
        worker "mods" 3 envCancelAfterFirst 0 [modA, modB, modC] :=
  (worker_cancellation "mods" envCancelAfterFirst [modA, modB, modC]).2 1 (by decide)
    (by intro j hj; interval_cases j; rfl) rfl

/-- C2 (code at the failing input): an archive that opens but holds no descriptor
is mapped to a descriptor with the empty version, not the sentinel `"unknown"`,
while the same file name with an archive that cannot be opened is mapped to
`"unknown"`; against a catalog entry for that file the first inventory gives one
entry to sync and the second none. -/
theorem scanLocalMods_no_descriptor_empty_version :
    Option.map (fun r => r "nodesc.zip") (ScanLocalMods dirNoDescriptor) =
        some (some { Version := "", Author := "" }) ∧
      Option.map (fun r => r "nodesc.zip") (ScanLocalMods dirUnreadable) =
        some (some { Version := "unknown", Author := "" }) ∧
      Option.map (fun r => (GetSyncStatus [modNoDesc] "FS22" r).Status.ModsToSync)
          (ScanLocalMods dirNoDescriptor) = some 1 ∧
      Option.map (fun r => (GetSyncStatus [modNoDesc] "FS22" r).Status.ModsToSync)
          (ScanLocalMods dirUnreadable) = some 0 := by
  decide

/-- C5 (code at the failing input): `parseSize` gives 537395200 for `"512.5 MB"`
and 0 for the lower-case spelling `"512.5 mb"`, also when the string passes the
upper-case check that `ParseHTML` makes before calling it. -/
theorem parseSize_lowercase_unit_zero :
    parseSize "512.5 MB" = 537395200 ∧ parseSize "512.5 mb" = 0 ∧
      parseSize "512.5 mb (MB)" = 0 := by
  decide

/-- C7 (code at the failing input): a member named `notmodDesc.xml` passes the
descriptor test and, stored before `modDesc.xml`, is the one whose version is
returned. -/
theorem extractModDesc_accepts_suffix :
    isDescriptorName "notmodDesc.xml" = true ∧
      extractModDesc archiveDecoy = .ok { Version := "9.9.9.9", Author := "decoy" } :=
  ⟨by decide, rfl⟩

/-! ## Lemmas on the catalog parser -/

theorem applyCol_URL (mod : Mod) (col : Col) : (applyCol mod col).URL = mod.URL := by
  unfold applyCol
  simp only []
  split_ifs <;> rfl

theorem applyCol_NeedsUpdate (mod : Mod) (col : Col) :
    (applyCol mod col).NeedsUpdate = mod.NeedsUpdate := by
  unfold applyCol
  simp only []
  split_ifs <;> rfl

theorem foldl_applyCol (cols : List Col) (mod : Mod) :
    (cols.foldl applyCol mod).URL = mod.URL ∧
      (cols.foldl applyCol mod).NeedsUpdate = mod.NeedsUpdate := by
  induction cols generalizing mod with
  | nil => exact ⟨rfl, rfl⟩
  | cons c rest ih =>
    rw [List.foldl_cons]
    exact ⟨(ih _).1.trans (applyCol_URL mod c), (ih _).2.trans (applyCol_NeedsUpdate mod c)⟩

theorem applyLink_NeedsUpdate (resolve : String → Option String) (mod : Mod) (href : String) :
    (applyLink resolve mod href).NeedsUpdate = mod.NeedsUpdate := by
  unfold applyLink
  split_ifs
  · cases resolve href <;> rfl
  · rfl

theorem foldl_applyLink_NeedsUpdate (resolve : String → Option String) (hrefs : List String)
    (mod : Mod) : (hrefs.foldl (applyLink resolve) mod).NeedsUpdate = mod.NeedsUpdate := by
  induction hrefs generalizing mod with
  | nil => rfl
  | cons h rest ih =>
    rw [List.foldl_cons]
    exact (ih _).trans (applyLink_NeedsUpdate resolve mod h)

theorem foldl_applyLink_URL (resolve : String → Option String) (hrefs : List String)
    (mod : Mod) :
    (hrefs.foldl (applyLink resolve) mod).URL =
      (((hrefs.filter isModLink).filterMap resolve).getLast?).getD mod.URL := by
  induction hrefs generalizing mod with
  | nil => rfl
  | cons h rest ih =>
    rw [List.foldl_cons, ih]
    cases hm : isModLink h with
    | false =>
      have : applyLink resolve mod h = mod := by
        unfold applyLink
        unfold isModLink at hm
        simp [hm]
      simp [List.filter_cons, hm, this]
    | true =>
      have hm2 : (HasPrefix h "mods/" && HasSuffix h ".zip") = true := hm
      cases hr : resolve h with
      | none =>
        have : applyLink resolve mod h = mod := by
          unfold applyLink
          simp [hm2, hr]
        simp [List.filter_cons, hm, hr, this]
      | some u =>
        have : (applyLink resolve mod h).URL = u := by
          unfold applyLink
          simp [hm2, hr]
        simp [List.filter_cons, hm, hr, this, List.getLast?_cons]

theorem applyFallbackFilename_fields (hrefs : List String) (mod : Mod) :
    (applyFallbackFilename hrefs mod).URL = mod.URL ∧
      (applyFallbackFilename hrefs mod).NeedsUpdate = mod.NeedsUpdate := by
  unfold applyFallbackFilename
  split_ifs
  · split <;> exact ⟨rfl, rfl⟩
  · exact ⟨rfl, rfl⟩

/-- The fields of an emitted entry that the link pass and the construction fix. -/
theorem parseRow_fields (resolve : String → Option String) (row : Row) (mod : Mod)
    (h : parseRow resolve row = some mod) :
    mod.URL = (((row.hrefs.filter isModLink).filterMap resolve).getLast?).getD "" ∧
      mod.NeedsUpdate = false := by
  unfold parseRow at h
  cases ht : row.nameTitle with
  | none => simp [ht] at h
  | some title =>
    have hU := foldl_applyLink_URL resolve row.hrefs (row.cols.foldl applyCol { Name := title })
    have hN := foldl_applyLink_NeedsUpdate resolve row.hrefs
      (row.cols.foldl applyCol { Name := title })
    rw [(foldl_applyCol row.cols { Name := title }).1] at hU
    rw [(foldl_applyCol row.cols { Name := title }).2] at hN
    simp only [ht] at h
    split_ifs at h
    simp only [Option.some.injEq] at h
    subst h
    rw [(applyFallbackFilename_fields _ _).1, (applyFallbackFilename_fields _ _).2]
    exact ⟨hU, hN⟩

theorem ParseHTML_needsUpdate (resolve : String → Option String) (rows : List Row) :
    ∀ m ∈ ParseHTML resolve rows, m.NeedsUpdate = false := by
  intro m hm
  simp only [ParseHTML, List.mem_filterMap] at hm
  obtain ⟨row, _, hrow⟩ := hm
  exact (parseRow_fields resolve row m hrow).2

/-- What the link pass of `ParseHTML` computes: every matching hyperlink that
`url.Parse` accepts overwrites `mod.URL`, so an emitted entry carries the
resolution of the last such hyperlink of its row, and the empty URL when the row
has none. -/
theorem parseRow_url_overwritten (resolve : String → Option String) (row : Row) (mod : Mod)
    (h : parseRow resolve row = some mod) :
    mod.URL = (((row.hrefs.filter isModLink).filterMap resolve).getLast?).getD "" ∧
      (∀ pre last u, row.hrefs.filter isModLink = pre ++ [last] → resolve last = some u →
        mod.URL = u) ∧
      (row.hrefs.filter isModLink = [] → mod.URL = "") := by
  have hU := (parseRow_fields resolve row mod h).1
  refine ⟨hU, ?_, ?_⟩
  · intro pre last u hsplit hres
    rw [hU, hsplit, List.filterMap_append]
    simp [hres]
  · intro hnone
    rw [hU, hnone]
    rfl

/-- C6 (code at the failing input): in a row with the links `mods/a.zip` and
`mods/b.zip`, in that order, the entry's URL is the resolution of the second
link, not of the first. When the row has no filename cell, the fallback filename
is read from the first link, so the entry pairs the file name `a.zip` with the
URL of `b.zip`, and `StartSync` downloads `b.zip` into `a.zip`. -/
theorem parseRow_url_not_first_link :
    Option.map Mod.URL (parseRow (resolveUnder "http://h/") rowTwoLinks) =
        some "http://h/mods/b.zip" ∧
      Option.map Mod.URL (parseRow (resolveUnder "http://h/") rowTwoLinks) ≠
        resolveUnder "http://h/" "mods/a.zip" ∧
      parseRow (resolveUnder "http://h/") rowTwoLinksNoCell =
        some { Name := "A", Filename := "a.zip", URL := "http://h/mods/b.zip" } ∧
      downloadsOf (StartSync (ParseHTML (resolveUnder "http://h/") [rowTwoLinksNoCell])
          LocalMods.empty "dir" envSecondFails) =
        [("http://h/mods/b.zip", "dir", "a.zip")] := by
  decide

/-- What the descriptor test of `extractModDesc` computes: whether the
lower-cased member path ends with `moddesc.xml`. -/
theorem isDescriptorName_eq_suffix (name : String) :
    isDescriptorName name = HasSuffix (ToLower name) "moddesc.xml" := by
  unfold isDescriptorName
  by_cases h : ToLower name = "moddesc.xml"
  · simp only [h]
    decide
  · simp [h]

end FsModSync
